import Mathlib

/-!
Verification development for the duplicate-file finder (otus_cpp_8).

The repository ships `src/main.cpp` together with headers
(`duplicate_finder.h`, `hash/crc32.h`, `hash/crc16.h`, the filesystem
traversers) that are not part of the source tree we were given.  The
command-line layer below is embedded from `src/main.cpp`; the Duplicate
Finder, the two checksum variants and the minimum-file-size filter are
modelled from the specification, as recorded in their doc comments.

Bytes are `Nat` values reduced mod 256 where they enter a checksum;
files are finite byte lists.
-/

namespace DupFinder

/-- A candidate file: a path plus its byte content.  `failAt` models the
file disappearing or becoming unreadable mid-scan: a block read starting
at an offset `≥ k` fails when `failAt = some k`; `none` means every read
succeeds.  A fully readable file is one with `failAt = none`. -/
structure Candidate where
  path : String
  content : List Nat
  failAt : Option Nat := none
deriving DecidableEq

/-- The incremental hash-function contract of §4.1:
`initial_state() → State`, `update(State, bytes) → State`,
`digest(State) → FixedWidthValue` (digests live in `Nat`). -/
structure HashAlg (σ : Type) where
  initial : σ
  update : σ → List Nat → σ
  digest : σ → Nat

/-- Modelled from the spec: one engine step of the 32-bit checksum
(`hash/crc32.h` is not under `src/`).  Standard reflected CRC-32
(polynomial 0xEDB88320), one input byte folded into a 32-bit state. -/
def crc32_step (crc b : Nat) : Nat :=
  let f : Nat → Nat := fun c => if c % 2 = 1 then ((c / 2) ^^^ 0xEDB88320) % 2 ^ 32 else c / 2
  f (f (f (f (f (f (f (f ((crc ^^^ b % 256) % 2 ^ 32))))))))

/-- Modelled from the spec: incremental `update` of the 32-bit checksum,
folding a byte block into the running state. -/
def crc32_update (s : Nat) (bytes : List Nat) : Nat :=
  bytes.foldl crc32_step s

/-- Modelled from the spec: the 32-bit checksum variant (`my::Crc32`),
init 0xFFFFFFFF, final xor 0xFFFFFFFF. -/
def Crc32 : HashAlg Nat :=
  { initial := 0xFFFFFFFF
    update := crc32_update
    digest := fun s => s ^^^ 0xFFFFFFFF }

/-- Modelled from the spec: one engine step of the 16-bit checksum
(`hash/crc16.h` is not under `src/`).  Standard reflected CRC-16/ARC
(polynomial 0xA001), one input byte folded into a 16-bit state. -/
def crc16_step (crc b : Nat) : Nat :=
  let f : Nat → Nat := fun c => if c % 2 = 1 then ((c / 2) ^^^ 0xA001) % 2 ^ 16 else c / 2
  f (f (f (f (f (f (f (f ((crc ^^^ b % 256) % 2 ^ 16))))))))

/-- Modelled from the spec: incremental `update` of the 16-bit checksum. -/
def crc16_update (s : Nat) (bytes : List Nat) : Nat :=
  bytes.foldl crc16_step s

/-- Modelled from the spec: the 16-bit checksum variant (`my::Crc16`),
init 0, digest is the state itself. -/
def Crc16 : HashAlg Nat :=
  { initial := 0
    update := crc16_update
    digest := fun s => s }

/-- The block of bytes a round reads: `blockSize` bytes starting at
`cursor` (the last block of a file may be shorter). -/
def readBlock (content : List Nat) (cursor blockSize : Nat) : List Nat :=
  (content.drop cursor).take blockSize

/-- Whether reading a block of `c` starting at `cursor` fails
(the file became unreadable at offset `failAt`). -/
def readFails (c : Candidate) (cursor : Nat) : Bool :=
  match c.failAt with
  | none => false
  | some k => decide (k ≤ cursor)

/-- Number of block rounds needed to consume a file of `len` bytes with
the given block size: `⌈len / blockSize⌉`. -/
def numRounds (blockSize len : Nat) : Nat :=
  (len + blockSize - 1) / blockSize

/-- Fuel-driven worker for `classesBy`; the fuel only serves structural
termination and any amount of at least the list length gives the same
answer (`classesByAux_congr`). -/
def classesByAux (key : α → Nat) : Nat → List α → List (List α)
  | _, [] => []
  | 0, _ :: _ => []
  | n + 1, a :: rest =>
      (a :: rest.filter (fun b => decide (key b = key a))) ::
        classesByAux key n (rest.filter (fun b => decide (key b ≠ key a)))

/-- Stable partition of a list into classes of equal key, classes ordered
by first occurrence, members keeping the input order.  This is the
"regrouped by map each round" partition of §9. -/
def classesBy (key : α → Nat) (l : List α) : List (List α) :=
  classesByAux key l.length l

lemma classesByAux_congr (key : α → Nat) :
    ∀ (n m : Nat) (l : List α), l.length ≤ n → l.length ≤ m →
      classesByAux key n l = classesByAux key m l := by
  intro n
  induction n with
  | zero =>
      intro m l hn hm
      cases l with
      | nil => cases m <;> rfl
      | cons a rest => simp at hn
  | succ n ih =>
      intro m l hn hm
      cases l with
      | nil => cases m <;> rfl
      | cons a rest =>
          cases m with
          | zero => simp at hm
          | succ m =>
              rw [classesByAux, classesByAux]
              congr 1
              have hlen := List.length_filter_le
                (fun b => decide (key b ≠ key a)) rest
              simp only [List.length_cons] at hn hm
              exact ih m _ (by omega) (by omega)

lemma classesBy_cons (key : α → Nat) (a : α) (rest : List α) :
    classesBy key (a :: rest) =
      (a :: rest.filter (fun b => decide (key b = key a))) ::
        classesBy key (rest.filter (fun b => decide (key b ≠ key a))) := by
  rw [classesBy, List.length_cons, classesByAux, classesBy]
  congr 1
  exact classesByAux_congr key rest.length _ _
    (List.length_filter_le _ _) (le_refl _)

/-- Induction along the recursion structure of `classesBy`. -/
lemma classesBy_induction (key : α → Nat) (motive : List α → Prop)
    (h0 : motive [])
    (h1 : ∀ a rest, motive (rest.filter (fun b => decide (key b ≠ key a))) →
      motive (a :: rest)) (l : List α) : motive l := by
  have H : ∀ (n : Nat) (l : List α), l.length ≤ n → motive l := by
    intro n
    induction n with
    | zero =>
        intro l hl
        cases l with
        | nil => exact h0
        | cons a rest => simp at hl
    | succ n ih =>
        intro l hl
        cases l with
        | nil => exact h0
        | cons a rest =>
            apply h1
            apply ih
            have := List.length_filter_le (fun b => decide (key b ≠ key a)) rest
            simp only [List.length_cons] at hl
            omega
  exact H l.length l (le_refl _)

/-- What one duplicate-finding run returns: the Result Partition
(`groups`), a ledger of how many bytes were read from each candidate
(`reads`), and the warning diagnostics for candidates dropped by a read
failure (`warnings`). -/
structure FinderResult where
  groups : List (List Candidate)
  reads : List (Candidate × Nat)
  warnings : List Candidate
deriving DecidableEq

/-- A live entry of a Group: the candidate, its Hash State, and the
number of bytes read from it so far. -/
abbrev Entry (σ : Type) := Candidate × σ × Nat

/-- Modelled from the spec (§4.2, `duplicate_finder.h` is not under
`src/`): progressive block hashing of one initial Group whose members all
have equal length, hence the shared number of remaining `rounds`.  Each
round reads the next block of every member (a failing read drops the
member with a warning), folds it into the member's Hash State, then
re-partitions by digest-so-far; singleton classes are proven unique and
dropped, classes of ≥ 2 continue.  A group that exhausts its rounds with
≥ 2 members is emitted. -/
def runGroupR (alg : HashAlg σ) (blockSize : Nat) :
    Nat → List (Entry σ) → Nat → FinderResult
  | 0, entries, _ =>
      { groups := if 2 ≤ entries.length then [entries.map (fun e => e.1)] else []
        reads := entries.map (fun e => (e.1, e.2.2))
        warnings := [] }
  | r + 1, entries, cursor =>
      let ok := entries.filter (fun e => !readFails e.1 cursor)
      let failed := entries.filter (fun e => readFails e.1 cursor)
      let advanced := ok.map (fun e =>
        (e.1, alg.update e.2.1 (readBlock e.1.content cursor blockSize),
          e.2.2 + (readBlock e.1.content cursor blockSize).length))
      let classes := classesBy (fun e => alg.digest e.2.1) advanced
      let small := classes.filter (fun cl => decide (cl.length < 2))
      let big := classes.filter (fun cl => decide (2 ≤ cl.length))
      let sub := big.map (fun cl => runGroupR alg blockSize r cl (cursor + blockSize))
      { groups := sub.flatMap (fun res => res.groups)
        reads := failed.map (fun e => (e.1, e.2.2))
          ++ small.flatMap (fun cl => cl.map (fun e => (e.1, e.2.2)))
          ++ sub.flatMap (fun res => res.reads)
        warnings := failed.map (fun e => e.1) ++ sub.flatMap (fun res => res.warnings) }

/-- Modelled from the spec (§4.2): the Duplicate Finder.  Bucket all
candidates by exact byte length; a bucket with fewer than 2 members is
discarded without reading any bytes (its members are charged 0 bytes in
the `reads` ledger); every remaining bucket becomes an initial Group
refined by `runGroupR`. -/
def findDuplicatesR (alg : HashAlg σ) (blockSize : Nat) (cs : List Candidate) :
    FinderResult :=
  let buckets := classesBy (fun c => c.content.length) cs
  let small := buckets.filter (fun b => decide (b.length < 2))
  let big := buckets.filter (fun b => decide (2 ≤ b.length))
  let runs := big.map (fun b =>
    runGroupR alg blockSize
      (numRounds blockSize ((b.headD ⟨"", [], none⟩).content.length))
      (b.map (fun c => (c, alg.initial, 0))) 0)
  { groups := runs.flatMap (fun res => res.groups)
    reads := small.flatMap (fun b => b.map (fun c => (c, 0)))
      ++ runs.flatMap (fun res => res.reads)
    warnings := runs.flatMap (fun res => res.warnings) }

/-- The Result Partition alone: the ordered duplicate Groups. -/
def findDuplicates (alg : HashAlg σ) (blockSize : Nat) (cs : List Candidate) :
    List (List Candidate) :=
  (findDuplicatesR alg blockSize cs).groups

/-- The digest-so-far trace of a file over `r` rounds: the digest after
each block, starting from state `s` and offset `cursor`. -/
def traceFrom (alg : HashAlg σ) (blockSize : Nat) :
    Nat → σ → List Nat → Nat → List Nat
  | 0, _, _, _ => []
  | r + 1, s, content, cursor =>
      let s1 := alg.update s (readBlock content cursor blockSize)
      alg.digest s1 :: traceFrom alg blockSize r s1 content (cursor + blockSize)

/-- Whether every one of the next `r` block reads of `c` succeeds. -/
def survivesFrom (c : Candidate) (blockSize : Nat) : Nat → Nat → Bool
  | 0, _ => true
  | r + 1, cursor => !readFails c cursor && survivesFrom c blockSize r (cursor + blockSize)

/-- The full digest trace of a candidate: digests at every block boundary
through end of file, from the initial state. -/
def fullTrace (alg : HashAlg σ) (blockSize : Nat) (c : Candidate) : List Nat :=
  traceFrom alg blockSize (numRounds blockSize c.content.length) alg.initial c.content 0

/-- Whether every block read of `c` through end of file succeeds. -/
def survivesAll (c : Candidate) (blockSize : Nat) : Bool :=
  survivesFrom c blockSize (numRounds blockSize c.content.length) 0

/-! ### Lemmas about the stable partition `classesBy` -/

lemma two_le_length_of_mem {a b : α} {l : List α} (ha : a ∈ l) (hb : b ∈ l)
    (hab : a ≠ b) : 2 ≤ l.length := by
  induction l with
  | nil => cases ha
  | cons x xs ih =>
      rcases List.mem_cons.mp ha with rfl | ha
      · rcases List.mem_cons.mp hb with rfl | hb
        · exact absurd rfl hab
        · have : 1 ≤ xs.length := List.length_pos.mpr (List.ne_nil_of_mem hb)
          simpa [List.length_cons] using Nat.succ_le_succ this
      · have : 1 ≤ xs.length := List.length_pos.mpr (List.ne_nil_of_mem ha)
        simpa [List.length_cons] using Nat.succ_le_succ this

lemma classesBy_sub {key : α → Nat} {l : List α} {cl : List α}
    (hcl : cl ∈ classesBy key l) {a : α} (ha : a ∈ cl) : a ∈ l := by
  induction l using classesBy_induction key with
  | h0 => cases hcl
  | h1 x rest ih =>
      rw [classesBy_cons] at hcl
      rcases List.mem_cons.mp hcl with rfl | hcl
      · rcases List.mem_cons.mp ha with rfl | ha
        · exact List.mem_cons_self _ _
        · exact List.mem_cons_of_mem _ (List.mem_of_mem_filter ha)
      · exact List.mem_cons_of_mem _ (List.mem_of_mem_filter (ih hcl))

lemma classesBy_eq_filter {key : α → Nat} {l : List α} {cl : List α}
    (hcl : cl ∈ classesBy key l) {a : α} (ha : a ∈ cl) :
    cl = l.filter (fun b => decide (key b = key a)) := by
  induction l using classesBy_induction key with
  | h0 => cases hcl
  | h1 x rest ih =>
      rw [classesBy_cons] at hcl
      rcases List.mem_cons.mp hcl with rfl | hcl
      · have hax : key a = key x := by
          rcases List.mem_cons.mp ha with rfl | ha
          · rfl
          · simpa using (List.mem_filter.mp ha).2
        simp only [List.filter_cons, hax, decide_eq_true_eq]
        rw [if_pos trivial]
      · have h1 := ih hcl
        have haRest : a ∈ rest.filter (fun b => decide (key b ≠ key x)) :=
          classesBy_sub hcl ha
        have hax : key a ≠ key x := by
          simpa using (List.mem_filter.mp haRest).2
        rw [h1, List.filter_filter, List.filter_cons]
        have hxa : (decide (key x = key a)) = false :=
          decide_eq_false (fun h => hax h.symm)
        rw [if_neg (by simp [hxa])]
        apply List.filter_congr
        intro b _
        by_cases hba : key b = key a
        · have hbx : key b ≠ key x := fun h => hax (hba.symm.trans h)
          simp [hba, hbx, hax]
        · simp [hba]

lemma classesBy_key_eq {key : α → Nat} {l : List α} {cl : List α}
    (hcl : cl ∈ classesBy key l) {a b : α} (ha : a ∈ cl) (hb : b ∈ cl) :
    key a = key b := by
  have h1 := classesBy_eq_filter hcl hb
  rw [h1] at ha
  simpa using (List.mem_filter.mp ha).2

lemma mem_classesBy_pair {key : α → Nat} {l : List α} {a b : α}
    (ha : a ∈ l) (hb : b ∈ l) (hk : key a = key b) :
    ∃ cl ∈ classesBy key l, a ∈ cl ∧ b ∈ cl := by
  induction l using classesBy_induction key with
  | h0 => cases ha
  | h1 x rest ih =>
      rw [classesBy_cons]
      by_cases hax : key a = key x
      · refine ⟨x :: rest.filter (fun c => decide (key c = key x)), List.mem_cons_self _ _, ?_, ?_⟩
        · rcases List.mem_cons.mp ha with rfl | ha
          · exact List.mem_cons_self _ _
          · exact List.mem_cons_of_mem _ (List.mem_filter.mpr ⟨ha, by simp [hax]⟩)
        · rcases List.mem_cons.mp hb with rfl | hb
          · exact List.mem_cons_self _ _
          · refine List.mem_cons_of_mem _ (List.mem_filter.mpr ⟨hb, ?_⟩)
            simp only [decide_eq_true_eq]
            exact hk.symm.trans hax
      · have ha1 : a ∈ rest := by
          rcases List.mem_cons.mp ha with rfl | h
          · exact absurd rfl hax
          · exact h
        have hb1 : b ∈ rest := by
          rcases List.mem_cons.mp hb with rfl | h
          · exact absurd hk hax
          · exact h
        have ha2 : a ∈ rest.filter (fun c => decide (key c ≠ key x)) := by
          refine List.mem_filter.mpr ⟨ha1, ?_⟩
          simp only [decide_eq_true_eq]
          exact hax
        have hb2 : b ∈ rest.filter (fun c => decide (key c ≠ key x)) := by
          refine List.mem_filter.mpr ⟨hb1, ?_⟩
          simp only [decide_eq_true_eq]
          exact fun h => hax (hk.trans h)
        obtain ⟨cl, hcl, hacl, hbcl⟩ := ih ha2 hb2
        exact ⟨cl, List.mem_cons_of_mem _ hcl, hacl, hbcl⟩

lemma exists_mem_classesBy {key : α → Nat} {l : List α} {a : α} (ha : a ∈ l) :
    ∃ cl ∈ classesBy key l, a ∈ cl := by
  obtain ⟨cl, hcl, hacl, _⟩ := mem_classesBy_pair ha ha rfl
  exact ⟨cl, hcl, hacl⟩

/-! ### Structural lemmas about one Group refinement run -/

lemma runGroupR_groups_two_le (alg : HashAlg σ) (B : Nat) :
    ∀ r (entries : List (Entry σ)) cursor G,
      G ∈ (runGroupR alg B r entries cursor).groups → 2 ≤ G.length := by
  intro r
  induction r with
  | zero =>
      intro entries cursor G hG
      rw [runGroupR] at hG
      simp only at hG
      split at hG
      · next h =>
          rcases List.mem_singleton.mp hG with rfl
          simpa using h
      · cases hG
  | succ r ih =>
      intro entries cursor G hG
      rw [runGroupR] at hG
      simp only [List.mem_flatMap, List.mem_map] at hG
      obtain ⟨res, ⟨cl, hcl, rfl⟩, hGres⟩ := hG
      exact ih cl (cursor + B) G hGres

lemma runGroupR_groups_mem (alg : HashAlg σ) (B : Nat) :
    ∀ r (entries : List (Entry σ)) cursor G c,
      G ∈ (runGroupR alg B r entries cursor).groups → c ∈ G →
      (∃ s n, (c, s, n) ∈ entries) ∧ survivesFrom c B r cursor = true := by
  intro r
  induction r with
  | zero =>
      intro entries cursor G c hG hc
      rw [runGroupR] at hG
      simp only at hG
      split at hG
      · next h =>
          rcases List.mem_singleton.mp hG with rfl
          obtain ⟨e, he, rfl⟩ := List.mem_map.mp hc
          exact ⟨⟨e.2.1, e.2.2, he⟩, rfl⟩
      · cases hG
  | succ r ih =>
      intro entries cursor G c hG hc
      rw [runGroupR] at hG
      simp only [List.mem_flatMap, List.mem_map] at hG
      obtain ⟨res, ⟨cl, hcl, rfl⟩, hGres⟩ := hG
      have hclC : cl ∈ classesBy (fun e => alg.digest e.2.1) _ := (List.mem_filter.mp hcl).1
      obtain ⟨⟨s, n, hsn⟩, hsurv⟩ := ih cl (cursor + B) G c hGres hc
      have hadv := classesBy_sub hclC hsn
      obtain ⟨e, heok, heq⟩ := List.mem_map.mp hadv
      have heent := List.mem_filter.mp heok
      have hce : e.1 = c := by simpa using congrArg Prod.fst heq
      refine ⟨⟨e.2.1, e.2.2, ?_⟩, ?_⟩
      · rw [← hce]
        exact heent.1
      · rw [survivesFrom]
        have hnf : readFails c cursor = false := by
          have := heent.2
          rw [hce] at this
          simpa using this
        simp [hnf, hsurv]

lemma runGroupR_warnings_survives (alg : HashAlg σ) (B : Nat) :
    ∀ r (entries : List (Entry σ)) cursor c,
      c ∈ (runGroupR alg B r entries cursor).warnings →
      (∃ s n, (c, s, n) ∈ entries) ∧ survivesFrom c B r cursor = false := by
  intro r
  induction r with
  | zero =>
      intro entries cursor c hc
      rw [runGroupR] at hc
      cases hc
  | succ r ih =>
      intro entries cursor c hc
      rw [runGroupR] at hc
      simp only [List.mem_append, List.mem_flatMap, List.mem_map] at hc
      rcases hc with ⟨e, hef, rfl⟩ | ⟨res, ⟨cl, hcl, rfl⟩, hcres⟩
      · have heent := List.mem_filter.mp hef
        refine ⟨⟨e.2.1, e.2.2, heent.1⟩, ?_⟩
        rw [survivesFrom]
        simp [heent.2]
      · have hclC : cl ∈ classesBy (fun e => alg.digest e.2.1) _ := (List.mem_filter.mp hcl).1
        obtain ⟨⟨s, n, hsn⟩, hsurv⟩ := ih cl (cursor + B) c hcres
        have hadv := classesBy_sub hclC hsn
        obtain ⟨e, heok, heq⟩ := List.mem_map.mp hadv
        have heent := List.mem_filter.mp heok
        have hce : e.1 = c := by simpa using congrArg Prod.fst heq
        refine ⟨⟨e.2.1, e.2.2, ?_⟩, ?_⟩
        · rw [← hce]
          exact heent.1
        · rw [survivesFrom]
          simp [hsurv]

lemma runGroupR_reads_mem (alg : HashAlg σ) (B : Nat) :
    ∀ r (entries : List (Entry σ)) cursor c n,
      (c, n) ∈ (runGroupR alg B r entries cursor).reads →
      ∃ s m, (c, s, m) ∈ entries := by
  intro r
  induction r with
  | zero =>
      intro entries cursor c n hc
      rw [runGroupR] at hc
      simp only at hc
      obtain ⟨e, he, heq⟩ := List.mem_map.mp hc
      have hce : e.1 = c := by simpa using congrArg Prod.fst heq
      exact ⟨e.2.1, e.2.2, by rw [← hce]; exact he⟩
  | succ r ih =>
      intro entries cursor c n hc
      rw [runGroupR] at hc
      simp only [List.mem_append, List.mem_flatMap, List.mem_map] at hc
      rcases hc with (⟨e, hef, heq⟩ | ⟨cl, hcl, e, hecl, heq⟩) | ⟨res, ⟨cl, hcl, rfl⟩, hcres⟩
      · have hce : e.1 = c := by simpa using congrArg Prod.fst heq
        exact ⟨e.2.1, e.2.2, by rw [← hce]; exact (List.mem_filter.mp hef).1⟩
      · have hclC : cl ∈ classesBy (fun e => alg.digest e.2.1) _ := (List.mem_filter.mp hcl).1
        have hadv := classesBy_sub hclC hecl
        obtain ⟨e0, he0ok, he0eq⟩ := List.mem_map.mp hadv
        have hce : e0.1 = c := by
          have h1 : e.1 = c := by simpa using congrArg Prod.fst heq
          have h2 : e0.1 = e.1 := by simpa using congrArg Prod.fst he0eq
          exact h2.trans h1
        exact ⟨e0.2.1, e0.2.2, by rw [← hce]; exact (List.mem_filter.mp he0ok).1⟩
      · obtain ⟨s, m, hsm⟩ := ih cl (cursor + B) c n hcres
        have hclC : cl ∈ classesBy (fun e => alg.digest e.2.1) _ := (List.mem_filter.mp hcl).1
        have hadv := classesBy_sub hclC hsm
        obtain ⟨e0, he0ok, he0eq⟩ := List.mem_map.mp hadv
        have hce : e0.1 = c := by simpa using congrArg Prod.fst he0eq
        exact ⟨e0.2.1, e0.2.2, by rw [← hce]; exact (List.mem_filter.mp he0ok).1⟩

/-- Master characterization of one Group run: two distinct candidates end
in a common emitted group exactly when both occur among the entries, all
their block reads succeed, and their digest-so-far traces agree at every
round. -/
lemma runGroupR_pair (alg : HashAlg σ) (B : Nat) {f g : Candidate} (hfg : f ≠ g) :
    ∀ r (entries : List (Entry σ)) cursor,
      (∃ G ∈ (runGroupR alg B r entries cursor).groups, f ∈ G ∧ g ∈ G) ↔
      (∃ sf nf sg ng, (f, sf, nf) ∈ entries ∧ (g, sg, ng) ∈ entries ∧
        survivesFrom f B r cursor = true ∧ survivesFrom g B r cursor = true ∧
        traceFrom alg B r sf f.content cursor = traceFrom alg B r sg g.content cursor) := by
  intro r
  induction r with
  | zero =>
      intro entries cursor
      rw [runGroupR]
      simp only
      constructor
      · rintro ⟨G, hG, hf, hg⟩
        split at hG
        · rcases List.mem_singleton.mp hG with rfl
          obtain ⟨ef, hef, hef1⟩ := List.mem_map.mp hf
          obtain ⟨eg, heg, heg1⟩ := List.mem_map.mp hg
          refine ⟨ef.2.1, ef.2.2, eg.2.1, eg.2.2, ?_, ?_, rfl, rfl, rfl⟩
          · rw [← hef1]
            exact hef
          · rw [← heg1]
            exact heg
        · cases hG
      · rintro ⟨sf, nf, sg, ng, hfe, hge, -, -, -⟩
        have hne : (f, sf, nf) ≠ (g, sg, ng) := by
          intro h
          exact hfg (by simpa using congrArg Prod.fst h)
        have h2 : 2 ≤ entries.length := two_le_length_of_mem hfe hge hne
        rw [if_pos h2]
        exact ⟨entries.map (fun e => e.1), List.mem_singleton.mpr rfl,
          List.mem_map.mpr ⟨(f, sf, nf), hfe, rfl⟩,
          List.mem_map.mpr ⟨(g, sg, ng), hge, rfl⟩⟩
  | succ r ih =>
      intro entries cursor
      rw [runGroupR]
      simp only [List.mem_flatMap, List.mem_map]
      constructor
      · rintro ⟨G, ⟨res, ⟨cl, hcl, rfl⟩, hG⟩, hf, hg⟩
        obtain ⟨sf1, nf1, sg1, ng1, hf1, hg1, hsf1, hsg1, htr⟩ :=
          (ih cl (cursor + B)).mp ⟨G, hG, hf, hg⟩
        have hclC : cl ∈ classesBy (fun e => alg.digest e.2.1) _ := (List.mem_filter.mp hcl).1
        have hdig : alg.digest sf1 = alg.digest sg1 := by
          have := classesBy_key_eq hclC hf1 hg1
          simpa using this
        obtain ⟨ef, hefok, hefeq⟩ := List.mem_map.mp (classesBy_sub hclC hf1)
        obtain ⟨eg, hegok, hegeq⟩ := List.mem_map.mp (classesBy_sub hclC hg1)
        simp only [Prod.mk.injEq] at hefeq hegeq
        obtain ⟨hef1, hef2, hef3⟩ := hefeq
        obtain ⟨heg1, heg2, heg3⟩ := hegeq
        rw [hef1] at hef2
        rw [heg1] at heg2
        have hefent := List.mem_filter.mp hefok
        have hegent := List.mem_filter.mp hegok
        have hfnf : readFails f cursor = false := by
          have := hefent.2
          rw [hef1] at this
          simpa using this
        have hgnf : readFails g cursor = false := by
          have := hegent.2
          rw [heg1] at this
          simpa using this
        refine ⟨ef.2.1, ef.2.2, eg.2.1, eg.2.2, ?_, ?_, ?_, ?_, ?_⟩
        · rw [← hef1]
          exact hefent.1
        · rw [← heg1]
          exact hegent.1
        · rw [survivesFrom]
          simp [hfnf, hsf1]
        · rw [survivesFrom]
          simp [hgnf, hsg1]
        · rw [traceFrom, traceFrom]
          rw [hef2, heg2, hdig, htr]
      · rintro ⟨sf, nf, sg, ng, hfe, hge, hsf, hsg, htr⟩
        rw [survivesFrom] at hsf hsg
        rw [Bool.and_eq_true] at hsf hsg
        have hfok : (f, sf, nf) ∈ entries.filter (fun e => !readFails e.1 cursor) :=
          List.mem_filter.mpr ⟨hfe, hsf.1⟩
        have hgok : (g, sg, ng) ∈ entries.filter (fun e => !readFails e.1 cursor) :=
          List.mem_filter.mpr ⟨hge, hsg.1⟩
        have hfadv : (f, alg.update sf (readBlock f.content cursor B),
            nf + (readBlock f.content cursor B).length) ∈
            (entries.filter (fun e => !readFails e.1 cursor)).map (fun e =>
              (e.1, alg.update e.2.1 (readBlock e.1.content cursor B),
                e.2.2 + (readBlock e.1.content cursor B).length)) :=
          List.mem_map.mpr ⟨(f, sf, nf), hfok, rfl⟩
        have hgadv : (g, alg.update sg (readBlock g.content cursor B),
            ng + (readBlock g.content cursor B).length) ∈
            (entries.filter (fun e => !readFails e.1 cursor)).map (fun e =>
              (e.1, alg.update e.2.1 (readBlock e.1.content cursor B),
                e.2.2 + (readBlock e.1.content cursor B).length)) :=
          List.mem_map.mpr ⟨(g, sg, ng), hgok, rfl⟩
        rw [traceFrom, traceFrom] at htr
        simp only [List.cons.injEq] at htr
        obtain ⟨hdig, htail⟩ := htr
        obtain ⟨cl, hclC, hfin, hgin⟩ :=
          @mem_classesBy_pair _ (fun e => alg.digest e.2.1) _ _ _ hfadv hgadv hdig
        have hne : (f, alg.update sf (readBlock f.content cursor B),
            nf + (readBlock f.content cursor B).length) ≠
            (g, alg.update sg (readBlock g.content cursor B),
              ng + (readBlock g.content cursor B).length) := by
          intro h
          exact hfg (by simpa using congrArg Prod.fst h)
        have h2 : 2 ≤ cl.length := two_le_length_of_mem hfin hgin hne
        have hclbig : cl ∈ (classesBy (fun e => alg.digest e.2.1)
            ((entries.filter (fun e => !readFails e.1 cursor)).map (fun e =>
              (e.1, alg.update e.2.1 (readBlock e.1.content cursor B),
                e.2.2 + (readBlock e.1.content cursor B).length)))).filter
            (fun cl => decide (2 ≤ cl.length)) :=
          List.mem_filter.mpr ⟨hclC, by simpa using h2⟩
        obtain ⟨G, hG, hfG, hgG⟩ := (ih cl (cursor + B)).mpr
          ⟨alg.update sf (readBlock f.content cursor B),
            nf + (readBlock f.content cursor B).length,
            alg.update sg (readBlock g.content cursor B),
            ng + (readBlock g.content cursor B).length,
            hfin, hgin, hsf.2, hsg.2, htail⟩
        exact ⟨G, ⟨runGroupR alg B r cl (cursor + B), ⟨cl, hclbig, rfl⟩, hG⟩, hfG, hgG⟩

/-! ### Lemmas about the whole Duplicate Finder run -/

lemma findDuplicatesR_groups_shape (alg : HashAlg σ) (B : Nat) (cs : List Candidate)
    {G : List Candidate} (hG : G ∈ (findDuplicatesR alg B cs).groups) :
    ∃ b ∈ (classesBy (fun c => c.content.length) cs).filter
        (fun b => decide (2 ≤ b.length)),
      G ∈ (runGroupR alg B
        (numRounds B ((b.headD ⟨"", [], none⟩).content.length))
        (b.map (fun c => (c, alg.initial, 0))) 0).groups := by
  rw [findDuplicatesR] at hG
  simp only [List.mem_flatMap, List.mem_map] at hG
  obtain ⟨res, ⟨b, hb, rfl⟩, hGres⟩ := hG
  exact ⟨b, hb, hGres⟩

lemma findDuplicatesR_mem_group (alg : HashAlg σ) (B : Nat) (cs : List Candidate)
    {G : List Candidate} {c : Candidate}
    (hG : G ∈ (findDuplicatesR alg B cs).groups) (hc : c ∈ G) :
    c ∈ cs ∧ survivesAll c B = true := by
  obtain ⟨b, hb, hGb⟩ := findDuplicatesR_groups_shape alg B cs hG
  have hbC : b ∈ classesBy (fun c => c.content.length) cs := (List.mem_filter.mp hb).1
  obtain ⟨⟨s, n, hsn⟩, hsurv⟩ := runGroupR_groups_mem alg B _ _ 0 G c hGb hc
  obtain ⟨c0, hc0b, hc0eq⟩ := List.mem_map.mp hsn
  have hc0 : c0 = c := by simpa using congrArg Prod.fst hc0eq
  rw [hc0] at hc0b
  have hcb : c ∈ cs := classesBy_sub hbC hc0b
  cases hbnil : b with
  | nil => rw [hbnil] at hc0b; cases hc0b
  | cons x xs =>
      have hx : x ∈ b := by rw [hbnil]; exact List.mem_cons_self _ _
      have hlen : x.content.length = c.content.length := classesBy_key_eq hbC hx hc0b
      rw [hbnil] at hsurv
      simp only [List.headD_cons] at hsurv
      rw [hlen] at hsurv
      exact ⟨hcb, hsurv⟩

lemma findDuplicatesR_warn (alg : HashAlg σ) (B : Nat) (cs : List Candidate)
    {c : Candidate} (hc : c ∈ (findDuplicatesR alg B cs).warnings) :
    c ∈ cs ∧ survivesAll c B = false := by
  rw [findDuplicatesR] at hc
  simp only [List.mem_flatMap, List.mem_map] at hc
  obtain ⟨res, ⟨b, hb, rfl⟩, hcres⟩ := hc
  have hbC : b ∈ classesBy (fun c => c.content.length) cs := (List.mem_filter.mp hb).1
  obtain ⟨⟨s, n, hsn⟩, hsurv⟩ := runGroupR_warnings_survives alg B _ _ 0 c hcres
  obtain ⟨c0, hc0b, hc0eq⟩ := List.mem_map.mp hsn
  have hc0 : c0 = c := by simpa using congrArg Prod.fst hc0eq
  rw [hc0] at hc0b
  have hcb : c ∈ cs := classesBy_sub hbC hc0b
  cases hbnil : b with
  | nil => rw [hbnil] at hc0b; cases hc0b
  | cons x xs =>
      have hx : x ∈ b := by rw [hbnil]; exact List.mem_cons_self _ _
      have hlen : x.content.length = c.content.length := classesBy_key_eq hbC hx hc0b
      rw [hbnil] at hsurv
      simp only [List.headD_cons] at hsurv
      rw [hlen] at hsurv
      exact ⟨hcb, hsurv⟩

/-- Master characterization of the Duplicate Finder: two distinct
candidates share an emitted Group exactly when both are candidates, have
equal byte length, every block read of each succeeds, and their
digest-so-far traces agree at every block boundary through end of file. -/
lemma findDuplicatesR_pair (alg : HashAlg σ) (B : Nat) (cs : List Candidate)
    {f g : Candidate} (hfg : f ≠ g) :
    (∃ G ∈ (findDuplicatesR alg B cs).groups, f ∈ G ∧ g ∈ G) ↔
    (f ∈ cs ∧ g ∈ cs ∧ f.content.length = g.content.length ∧
      survivesAll f B = true ∧ survivesAll g B = true ∧
      fullTrace alg B f = fullTrace alg B g) := by
  constructor
  · rintro ⟨G, hG, hf, hg⟩
    obtain ⟨b, hb, hGb⟩ := findDuplicatesR_groups_shape alg B cs hG
    have hbC : b ∈ classesBy (fun c => c.content.length) cs := (List.mem_filter.mp hb).1
    obtain ⟨sf, nf, sg, ng, hfe, hge, hsf, hsg, htr⟩ :=
      (runGroupR_pair alg B hfg _ _ 0).mp ⟨G, hGb, hf, hg⟩
    obtain ⟨f0, hf0b, hf0eq⟩ := List.mem_map.mp hfe
    obtain ⟨g0, hg0b, hg0eq⟩ := List.mem_map.mp hge
    simp only [Prod.mk.injEq] at hf0eq hg0eq
    obtain ⟨hf01, hf02, hf03⟩ := hf0eq
    obtain ⟨hg01, hg02, hg03⟩ := hg0eq
    rw [hf01] at hf0b
    rw [hg01] at hg0b
    have hfcs : f ∈ cs := classesBy_sub hbC hf0b
    have hgcs : g ∈ cs := classesBy_sub hbC hg0b
    have hlenfg : f.content.length = g.content.length := classesBy_key_eq hbC hf0b hg0b
    cases hbnil : b with
    | nil => rw [hbnil] at hf0b; cases hf0b
    | cons x xs =>
        have hx : x ∈ b := by rw [hbnil]; exact List.mem_cons_self _ _
        have hlen : x.content.length = f.content.length := classesBy_key_eq hbC hx hf0b
        rw [hbnil] at hsf hsg htr
        simp only [List.headD_cons] at hsf hsg htr
        rw [hlen] at hsf hsg htr
        rw [← hf02] at htr
        rw [← hg02] at htr
        refine ⟨hfcs, hgcs, hlenfg, hsf, ?_, ?_⟩
        · rw [survivesAll, ← hlenfg]
          exact hsg
        · rw [fullTrace, fullTrace, ← hlenfg]
          exact htr
  · rintro ⟨hfcs, hgcs, hlen, hsf, hsg, htr⟩
    obtain ⟨b, hbC, hfb, hgb⟩ :=
      @mem_classesBy_pair _ (fun c => c.content.length) _ _ _ hfcs hgcs hlen
    have h2 : 2 ≤ b.length := two_le_length_of_mem hfb hgb hfg
    have hbbig : b ∈ (classesBy (fun c => c.content.length) cs).filter
        (fun b => decide (2 ≤ b.length)) :=
      List.mem_filter.mpr ⟨hbC, by simpa using h2⟩
    cases hbnil : b with
    | nil => rw [hbnil] at hfb; cases hfb
    | cons x xs =>
        have hx : x ∈ b := by rw [hbnil]; exact List.mem_cons_self _ _
        have hxlen : x.content.length = f.content.length := classesBy_key_eq hbC hx hfb
        rw [hbnil] at hfb hgb
        have hR : ((x :: xs).headD (⟨"", [], none⟩ : Candidate)).content.length =
            f.content.length := by
          simpa using hxlen
        have hsf1 : survivesFrom f B
            (numRounds B (((x :: xs).headD ⟨"", [], none⟩).content.length)) 0 = true := by
          rw [hR]
          exact hsf
        have hsg1 : survivesFrom g B
            (numRounds B (((x :: xs).headD ⟨"", [], none⟩).content.length)) 0 = true := by
          rw [hR, hlen]
          exact hsg
        have htr1 : traceFrom alg B
            (numRounds B (((x :: xs).headD ⟨"", [], none⟩).content.length))
            alg.initial f.content 0 =
          traceFrom alg B
            (numRounds B (((x :: xs).headD ⟨"", [], none⟩).content.length))
            alg.initial g.content 0 := by
          rw [hR]
          rw [fullTrace] at htr
          rw [fullTrace] at htr
          rw [← hlen] at htr
          exact htr
        obtain ⟨G, hG, hfG, hgG⟩ := (runGroupR_pair alg B hfg
            (numRounds B (((x :: xs).headD ⟨"", [], none⟩).content.length))
            ((x :: xs).map (fun c => (c, alg.initial, 0))) 0).mpr
          ⟨alg.initial, 0, alg.initial, 0,
            List.mem_map.mpr ⟨f, hfb, rfl⟩, List.mem_map.mpr ⟨g, hgb, rfl⟩,
            hsf1, hsg1, htr1⟩
        refine ⟨G, ?_, hfG, hgG⟩
        rw [findDuplicatesR]
        simp only [List.mem_flatMap, List.mem_map]
        refine ⟨_, ⟨b, hbbig, ?_⟩, hG⟩
        rw [hbnil]

lemma findDuplicatesR_two_le (alg : HashAlg σ) (B : Nat) (cs : List Candidate)
    {G : List Candidate} (hG : G ∈ (findDuplicatesR alg B cs).groups) :
    2 ≤ G.length := by
  obtain ⟨b, hb, hGb⟩ := findDuplicatesR_groups_shape alg B cs hG
  exact runGroupR_groups_two_le alg B _ _ 0 G hGb

lemma findDuplicatesR_reads_split (alg : HashAlg σ) (B : Nat) (cs : List Candidate)
    {c : Candidate} {n : Nat} (h : (c, n) ∈ (findDuplicatesR alg B cs).reads) :
    n = 0 ∨
      (2 ≤ (cs.filter (fun d => decide (d.content.length = c.content.length))).length ∧
        (c, n) ∈ (runGroupR alg B (numRounds B c.content.length)
          ((cs.filter (fun d => decide (d.content.length = c.content.length))).map
            (fun d => (d, alg.initial, 0))) 0).reads) := by
  rw [findDuplicatesR] at h
  simp only [List.mem_append, List.mem_flatMap, List.mem_map] at h
  rcases h with ⟨b, hb, hcb⟩ | ⟨res, ⟨b, hb, rfl⟩, hcres⟩
  · left
    obtain ⟨d, hd, hdeq⟩ := hcb
    have := congrArg Prod.snd hdeq
    simpa using this.symm
  · right
    have hbC : b ∈ classesBy (fun c => c.content.length) cs := (List.mem_filter.mp hb).1
    have hbig : 2 ≤ b.length := by
      have := (List.mem_filter.mp hb).2
      simpa using this
    obtain ⟨s, m, hsm⟩ := runGroupR_reads_mem alg B _ _ 0 c n hcres
    obtain ⟨c0, hc0b, hc0eq⟩ := List.mem_map.mp hsm
    have hc0 : c0 = c := by simpa using congrArg Prod.fst hc0eq
    rw [hc0] at hc0b
    have hbeq : b = cs.filter (fun d => decide (d.content.length = c.content.length)) :=
      classesBy_eq_filter hbC hc0b
    refine ⟨by rw [← hbeq]; exact hbig, ?_⟩
    cases hbnil : b with
    | nil => rw [hbnil] at hc0b; cases hc0b
    | cons x xs =>
        have hx : x ∈ b := by rw [hbnil]; exact List.mem_cons_self _ _
        have hlen : x.content.length = c.content.length := classesBy_key_eq hbC hx hc0b
        rw [hbnil] at hcres
        simp only [List.headD_cons] at hcres
        rw [hlen] at hcres
        rw [hbnil] at hbeq
        rw [hbeq] at hcres
        exact hcres

lemma findDuplicatesR_small_read_zero (alg : HashAlg σ) (B : Nat) (cs : List Candidate)
    {c : Candidate} (hc : c ∈ cs)
    (hsmall : (cs.filter (fun d => decide (d.content.length = c.content.length))).length < 2) :
    (c, 0) ∈ (findDuplicatesR alg B cs).reads := by
  obtain ⟨b, hbC, hcb⟩ := @exists_mem_classesBy _ (fun c => c.content.length) _ _ hc
  have hbeq : b = cs.filter (fun d => decide (d.content.length = c.content.length)) :=
    classesBy_eq_filter hbC hcb
  have hbsmall : b ∈ (classesBy (fun c => c.content.length) cs).filter
      (fun b => decide (b.length < 2)) := by
    refine List.mem_filter.mpr ⟨hbC, ?_⟩
    simp only [decide_eq_true_eq]
    rw [hbeq]
    exact hsmall
  rw [findDuplicatesR]
  simp only [List.mem_append, List.mem_flatMap, List.mem_map]
  exact Or.inl ⟨b, hbsmall, ⟨c, hcb, rfl⟩⟩

/-- A bucket of zero-length candidates of size ≥ 2 is emitted at once,
with a zero-byte read charged to every member. -/
lemma findDuplicatesR_zero_bucket (alg : HashAlg σ) (B : Nat) (cs : List Candidate)
    (hB : 0 < B)
    (hZ : 2 ≤ (cs.filter (fun c => decide (c.content.length = 0))).length) :
    cs.filter (fun c => decide (c.content.length = 0)) ∈ (findDuplicatesR alg B cs).groups ∧
    ∀ c ∈ cs.filter (fun c => decide (c.content.length = 0)),
      (c, 0) ∈ (findDuplicatesR alg B cs).reads := by
  set Z := cs.filter (fun c => decide (c.content.length = 0)) with hZdef
  have hR0 : numRounds B 0 = 0 := by
    rw [numRounds]
    exact Nat.div_eq_of_lt (by omega)
  cases hZnil : Z with
  | nil => rw [hZnil] at hZ; simp at hZ
  | cons z zs =>
      have hz : z ∈ Z := by rw [hZnil]; exact List.mem_cons_self _ _
      have hzcs : z ∈ cs := List.mem_of_mem_filter hz
      have hzlen : z.content.length = 0 := by
        have := (List.mem_filter.mp hz).2
        simpa using this
      obtain ⟨b, hbC, hzb⟩ := @exists_mem_classesBy _ (fun c => c.content.length) _ _ hzcs
      have hbeq : b = cs.filter (fun d => decide (d.content.length = z.content.length)) :=
        classesBy_eq_filter hbC hzb
      have hbZ : b = Z := by
        rw [hbeq, hZdef]
        apply List.filter_congr
        intro d _
        rw [hzlen]
      have hbbig : b ∈ (classesBy (fun c => c.content.length) cs).filter
          (fun b => decide (2 ≤ b.length)) := by
        refine List.mem_filter.mpr ⟨hbC, ?_⟩
        simp only [decide_eq_true_eq]
        rw [hbZ]
        exact hZ
      have hhead : ((b.headD (⟨"", [], none⟩ : Candidate)).content.length) = 0 := by
        rw [hbZ, hZnil]
        simpa using hzlen
      have hrun : runGroupR alg B
          (numRounds B ((b.headD (⟨"", [], none⟩ : Candidate)).content.length))
          (b.map (fun c => (c, alg.initial, 0))) 0 =
          { groups := [b]
            reads := b.map (fun c => (c, 0))
            warnings := [] } := by
        rw [hhead, hR0, runGroupR]
        have hlen2 : 2 ≤ (b.map (fun c => ((c, alg.initial, 0) : Entry σ))).length := by
          rw [List.length_map, hbZ]
          exact hZ
        rw [if_pos hlen2]
        rw [List.map_map, List.map_map]
        have hcomp1 : ((fun (e : Entry σ) => e.1) ∘ fun c => ((c, alg.initial, 0) : Entry σ)) =
            fun c => c := rfl
        have hcomp2 : ((fun (e : Entry σ) => (e.1, e.2.2)) ∘ fun c => ((c, alg.initial, 0) : Entry σ)) =
            fun c => (c, (0 : Nat)) := rfl
        rw [hcomp1, hcomp2, List.map_id']
      constructor
      · rw [findDuplicatesR]
        simp only [List.mem_flatMap, List.mem_map]
        refine ⟨_, ⟨b, hbbig, rfl⟩, ?_⟩
        rw [hrun]
        exact List.mem_singleton.mpr (hbZ.trans hZnil).symm
      · intro c hcZ
        rw [findDuplicatesR]
        simp only [List.mem_append, List.mem_flatMap, List.mem_map]
        refine Or.inr ⟨_, ⟨b, hbbig, rfl⟩, ?_⟩
        rw [hrun]
        have hcb : c ∈ b := by rw [hbZ, hZnil]; exact hcZ
        exact List.mem_map.mpr ⟨c, hcb, rfl⟩

/-- A fully readable candidate never suffers a read failure. -/
lemma survivesFrom_none {c : Candidate} (h : c.failAt = none) (B : Nat) :
    ∀ r cursor, survivesFrom c B r cursor = true := by
  intro r
  induction r with
  | zero => intro cursor; rfl
  | succ r ih =>
      intro cursor
      rw [survivesFrom]
      have hnf : readFails c cursor = false := by
        rw [readFails, h]
      simp [hnf, ih]

/-- Folding a byte-level step chunk by chunk equals folding it over the
concatenation of the chunks. -/
lemma chunked_foldl (step : Nat → Nat → Nat) :
    ∀ (chunks : List (List Nat)) (s : Nat),
      chunks.foldl (fun t ch => ch.foldl step t) s = chunks.flatten.foldl step s := by
  intro chunks
  induction chunks with
  | nil => intro s; rfl
  | cons ch rest ih =>
      intro s
      rw [List.foldl_cons, List.flatten_cons, List.foldl_append, ih]

/-! ### The command-line layer, embedded from `src/main.cpp` -/

/-- The fields of `my::ProgramOptions` with the default values registered
in `parse_command_line` (src/main.cpp): `--size` defaults to 4096,
`--hash` to "crc32", `--min_file_size` to 1; `--root_dir` is required and
has no default; the switches default to false. -/
structure ProgramOptions where
  block_size : Nat := 4096
  hash_algorithm : String := "crc32"
  min_file_size : Nat := 1
  root_directories : List String := []
  exclude_directories : List String := []
  masks_include : List String := []
  masks_exclude : List String := []
  recursive : Bool := false
  case_sensitive : Bool := false
  show_help : Bool := false

/-- The configuration parsed when every command-line option is omitted. -/
def defaultOptions : ProgramOptions := {}

/-- Modelled from the spec: the File Source applies the minimum-file-size
rule (`set_min_file_size` of the traverser, which is not under `src/`):
only files of at least `minSize` bytes become candidates. -/
def applyMinFileSize (minSize : Nat) (files : List Candidate) : List Candidate :=
  files.filter (fun c => decide (minSize ≤ c.content.length))

/-- Outcome of one process run of `main` (src/main.cpp). -/
inductive RunOutcome where
  | helpShown
  | ok (result : FinderResult)
  | error (msg : String)
deriving DecidableEq

/-- Process exit code: `main` returns 0 after help or a successful run and
its catch handlers return 1 (src/main.cpp). -/
def exitCode : RunOutcome → Nat
  | .helpShown => 0
  | .ok _ => 0
  | .error _ => 1

/-- The diagnostic line the catch handler of `main` prints to `std::cerr`:
"Error: " followed by the exception message (src/main.cpp). -/
def diagnostic : RunOutcome → Option String
  | .error msg => some ("Error: " ++ msg)
  | _ => none

/-- One run of `main` (src/main.cpp): help short-circuits with exit 0; a
missing `--root_dir` is a command-line error (the option is declared
`required()`); a zero block size is rejected before any Group processing
(src/main.cpp:121-126); then the hash-algorithm name dispatches the
finder on the `Crc32` or the `Crc16` variant and any other name is
rejected with a diagnostic naming it.  `files` are the files the
traversal discovers before the minimum-size rule; `ioError` models a
filesystem exception raised while the selected run executes, which the
catch-all handler converts into an error exit. -/
def mainRun (opts : ProgramOptions) (files : List Candidate)
    (ioError : Option String) : RunOutcome :=
  if opts.show_help then .helpShown
  else if opts.root_directories = [] then
    .error "Error while parsing command-line arguments: the option root_dir is required but missing"
  else if opts.block_size = 0 then .error "Block size must be at least 1"
  else if opts.hash_algorithm = "crc32" then
    match ioError with
    | some msg => .error msg
    | none => .ok (findDuplicatesR Crc32 opts.block_size
        (applyMinFileSize opts.min_file_size files))
  else if opts.hash_algorithm = "crc16" then
    match ioError with
    | some msg => .error msg
    | none => .ok (findDuplicatesR Crc16 opts.block_size
        (applyMinFileSize opts.min_file_size files))
  else
    .error ("Incorrect hash algorithm: " ++ opts.hash_algorithm ++
      ". Supported algorithms are crc32 and crc16.")

/-! ### The claims -/

lemma survivesAll_none {c : Candidate} (h : c.failAt = none) (B : Nat) :
    survivesAll c B = true := by
  rw [survivesAll]
  exact survivesFrom_none h B _ _

/-- C1 (amended): for readable candidate files, two distinct files appear
in the same Group of the Result Partition iff they are candidates of
equal byte length whose digest-so-far agrees at every block boundary
through end of file; files with byte-identical content always share a
Group, but agreement of every block digest is weaker than byte-for-byte
identical content when the checksum collides. -/
theorem claim_C1 (alg : HashAlg σ) (B : Nat) (cs : List Candidate)
    (f g : Candidate) (hfg : f ≠ g)
    (hf : f.failAt = none) (hg : g.failAt = none) :
    ((∃ G ∈ findDuplicates alg B cs, f ∈ G ∧ g ∈ G) ↔
      (f ∈ cs ∧ g ∈ cs ∧ f.content.length = g.content.length ∧
        fullTrace alg B f = fullTrace alg B g)) ∧
    (f ∈ cs → g ∈ cs → f.content = g.content →
      ∃ G ∈ findDuplicates alg B cs, f ∈ G ∧ g ∈ G) := by
  have hpair := findDuplicatesR_pair alg B cs hfg
  constructor
  · rw [findDuplicates, hpair]
    constructor
    · rintro ⟨h1, h2, h3, -, -, h6⟩
      exact ⟨h1, h2, h3, h6⟩
    · rintro ⟨h1, h2, h3, h6⟩
      exact ⟨h1, h2, h3, survivesAll_none hf B, survivesAll_none hg B, h6⟩
  · intro h1 h2 hco
    rw [findDuplicates, hpair]
    refine ⟨h1, h2, by rw [hco], survivesAll_none hf B, survivesAll_none hg B, ?_⟩
    rw [fullTrace, fullTrace, hco]

/-- C1 counterexample: the claim as stated is false on the code — with
the 16-bit checksum, the 3-byte files [0,193,192] and [1,0,0] have
different content yet collide on the digest of their single block, so the
Finder reports them in one Group. -/
theorem claim_C1_counterexample :
    (∃ G ∈ findDuplicates Crc16 4096
        [⟨"a", [0, 193, 192], none⟩, ⟨"b", [1, 0, 0], none⟩],
      (⟨"a", [0, 193, 192], none⟩ : Candidate) ∈ G ∧
      (⟨"b", [1, 0, 0], none⟩ : Candidate) ∈ G) ∧
    (⟨"a", [0, 193, 192], none⟩ : Candidate).content ≠
      (⟨"b", [1, 0, 0], none⟩ : Candidate).content := by
  decide

/-- Witness for C1's amended theorem at a concrete input. -/
theorem claim_C1_witness :
    ((∃ G ∈ findDuplicates Crc32 4096 [⟨"u", [7], none⟩, ⟨"v", [7], none⟩],
        (⟨"u", [7], none⟩ : Candidate) ∈ G ∧ (⟨"v", [7], none⟩ : Candidate) ∈ G) ↔
      ((⟨"u", [7], none⟩ : Candidate) ∈
          ([⟨"u", [7], none⟩, ⟨"v", [7], none⟩] : List Candidate) ∧
        (⟨"v", [7], none⟩ : Candidate) ∈
          ([⟨"u", [7], none⟩, ⟨"v", [7], none⟩] : List Candidate) ∧
        (⟨"u", [7], none⟩ : Candidate).content.length =
          (⟨"v", [7], none⟩ : Candidate).content.length ∧
        fullTrace Crc32 4096 ⟨"u", [7], none⟩ = fullTrace Crc32 4096 ⟨"v", [7], none⟩)) ∧
    ((⟨"u", [7], none⟩ : Candidate) ∈
        ([⟨"u", [7], none⟩, ⟨"v", [7], none⟩] : List Candidate) →
      (⟨"v", [7], none⟩ : Candidate) ∈
        ([⟨"u", [7], none⟩, ⟨"v", [7], none⟩] : List Candidate) →
      (⟨"u", [7], none⟩ : Candidate).content = (⟨"v", [7], none⟩ : Candidate).content →
      ∃ G ∈ findDuplicates Crc32 4096 [⟨"u", [7], none⟩, ⟨"v", [7], none⟩],
        (⟨"u", [7], none⟩ : Candidate) ∈ G ∧ (⟨"v", [7], none⟩ : Candidate) ∈ G) :=
  claim_C1 Crc32 4096 [⟨"u", [7], none⟩, ⟨"v", [7], none⟩]
    ⟨"u", [7], none⟩ ⟨"v", [7], none⟩ (by decide) rfl rfl

/-- C2: files of different lengths never share a Group, and a candidate
whose length bucket has fewer than 2 members is charged zero bytes in the
read ledger — no byte of it is ever read or hashed. -/
theorem claim_C2 (alg : HashAlg σ) (B : Nat) (cs : List Candidate) :
    (∀ G ∈ findDuplicates alg B cs, ∀ f ∈ G, ∀ g ∈ G,
      f.content.length = g.content.length) ∧
    (∀ c ∈ cs,
      (cs.filter (fun d => decide (d.content.length = c.content.length))).length < 2 →
      (c, 0) ∈ (findDuplicatesR alg B cs).reads ∧
      ∀ n, (c, n) ∈ (findDuplicatesR alg B cs).reads → n = 0) := by
  constructor
  · intro G hG f hf g hg
    rw [findDuplicates] at hG
    obtain ⟨b, hb, hGb⟩ := findDuplicatesR_groups_shape alg B cs hG
    have hbC : b ∈ classesBy (fun c => c.content.length) cs := (List.mem_filter.mp hb).1
    obtain ⟨⟨sf, nf, hfe⟩, -⟩ := runGroupR_groups_mem alg B _ _ 0 G f hGb hf
    obtain ⟨⟨sg, ng, hge⟩, -⟩ := runGroupR_groups_mem alg B _ _ 0 G g hGb hg
    obtain ⟨f0, hf0b, hf0eq⟩ := List.mem_map.mp hfe
    obtain ⟨g0, hg0b, hg0eq⟩ := List.mem_map.mp hge
    have hf0 : f0 = f := by simpa using congrArg Prod.fst hf0eq
    have hg0 : g0 = g := by simpa using congrArg Prod.fst hg0eq
    rw [hf0] at hf0b
    rw [hg0] at hg0b
    exact classesBy_key_eq hbC hf0b hg0b
  · intro c hc hsmall
    refine ⟨findDuplicatesR_small_read_zero alg B cs hc hsmall, ?_⟩
    intro n hn
    rcases findDuplicatesR_reads_split alg B cs hn with h0 | ⟨hbig, -⟩
    · exact h0
    · omega

/-- Witness for C2 at a concrete input: a 2-byte and a 3-byte file are
each alone in their length buckets and are charged zero read bytes. -/
theorem claim_C2_witness :
    ((⟨"A", [1, 2], none⟩ : Candidate), 0) ∈
      (findDuplicatesR Crc32 3 [⟨"A", [1, 2], none⟩, ⟨"B", [1, 2, 3], none⟩]).reads :=
  ((claim_C2 Crc32 3 [⟨"A", [1, 2], none⟩, ⟨"B", [1, 2, 3], none⟩]).2
    ⟨"A", [1, 2], none⟩ (by decide) (by decide)).1

/-- C3: the bucket of zero-length candidates, when it has at least two
members, is emitted as a duplicate Group with zero bytes read from every
member. -/
theorem claim_C3 (alg : HashAlg σ) (B : Nat) (cs : List Candidate) (hB : 0 < B)
    (hZ : 2 ≤ (cs.filter (fun c => decide (c.content.length = 0))).length) :
    cs.filter (fun c => decide (c.content.length = 0)) ∈ findDuplicates alg B cs ∧
    ∀ c ∈ cs.filter (fun c => decide (c.content.length = 0)),
      (c, 0) ∈ (findDuplicatesR alg B cs).reads ∧
      ∀ n, (c, n) ∈ (findDuplicatesR alg B cs).reads → n = 0 := by
  obtain ⟨hgrp, hreads⟩ := findDuplicatesR_zero_bucket alg B cs hB hZ
  refine ⟨hgrp, ?_⟩
  intro c hcZ
  refine ⟨hreads c hcZ, ?_⟩
  have hc0 : c.content.length = 0 := by
    have := (List.mem_filter.mp hcZ).2
    simpa using this
  have hR0 : numRounds B 0 = 0 := by
    rw [numRounds]
    exact Nat.div_eq_of_lt (by omega)
  intro n hn
  rcases findDuplicatesR_reads_split alg B cs hn with h0 | ⟨-, hrun⟩
  · exact h0
  · simp only [hc0] at hrun
    rw [hR0, runGroupR] at hrun
    simp only at hrun
    obtain ⟨e, he, heq⟩ := List.mem_map.mp hrun
    obtain ⟨d, hd, hdeq⟩ := List.mem_map.mp he
    have hn2 : e.2.2 = n := by simpa using congrArg Prod.snd heq
    rw [← hn2, ← hdeq]

/-- Witness for C3: three zero-length files form exactly one Group
holding all three, with zero bytes read. -/
theorem claim_C3_witness :
    (findDuplicates Crc32 4096
        [⟨"Z1", [], none⟩, ⟨"Z2", [], none⟩, ⟨"Z3", [], none⟩] =
      [[⟨"Z1", [], none⟩, ⟨"Z2", [], none⟩, ⟨"Z3", [], none⟩]]) ∧
    ([⟨"Z1", [], none⟩, ⟨"Z2", [], none⟩, ⟨"Z3", [], none⟩] : List Candidate).filter
        (fun c => decide (c.content.length = 0)) ∈
      findDuplicates Crc32 4096
        [⟨"Z1", [], none⟩, ⟨"Z2", [], none⟩, ⟨"Z3", [], none⟩] :=
  ⟨by decide,
   (claim_C3 Crc32 4096 [⟨"Z1", [], none⟩, ⟨"Z2", [], none⟩, ⟨"Z3", [], none⟩]
     (by decide) (by decide)).1⟩

/-- C4: every Group of the Result Partition has at least 2 members. -/
theorem claim_C4 (alg : HashAlg σ) (B : Nat) (cs : List Candidate) :
    ∀ G ∈ findDuplicates alg B cs, 2 ≤ G.length := by
  intro G hG
  rw [findDuplicates] at hG
  exact findDuplicatesR_two_le alg B cs hG

/-- Witness for C4 at a concrete input. -/
theorem claim_C4_witness :
    2 ≤ ([⟨"a", [5], none⟩, ⟨"b", [5], none⟩] : List Candidate).length :=
  claim_C4 Crc32 1 [⟨"a", [5], none⟩, ⟨"b", [5], none⟩]
    [⟨"a", [5], none⟩, ⟨"b", [5], none⟩] (by decide)

/-- C5: both checksum variants are chunking-independent: folding any two
chunkings of the same byte sequence through `update` from the initial
state yields the same digest. -/
theorem claim_C5 (chunks1 chunks2 : List (List Nat))
    (h : chunks1.flatten = chunks2.flatten) :
    Crc32.digest (chunks1.foldl Crc32.update Crc32.initial) =
      Crc32.digest (chunks2.foldl Crc32.update Crc32.initial) ∧
    Crc16.digest (chunks1.foldl Crc16.update Crc16.initial) =
      Crc16.digest (chunks2.foldl Crc16.update Crc16.initial) := by
  have h32a : chunks1.foldl Crc32.update Crc32.initial =
      chunks1.flatten.foldl crc32_step Crc32.initial :=
    chunked_foldl crc32_step chunks1 Crc32.initial
  have h32b : chunks2.foldl Crc32.update Crc32.initial =
      chunks2.flatten.foldl crc32_step Crc32.initial :=
    chunked_foldl crc32_step chunks2 Crc32.initial
  have h16a : chunks1.foldl Crc16.update Crc16.initial =
      chunks1.flatten.foldl crc16_step Crc16.initial :=
    chunked_foldl crc16_step chunks1 Crc16.initial
  have h16b : chunks2.foldl Crc16.update Crc16.initial =
      chunks2.flatten.foldl crc16_step Crc16.initial :=
    chunked_foldl crc16_step chunks2 Crc16.initial
  constructor
  · rw [h32a, h32b, h]
  · rw [h16a, h16b, h]

/-- Witness for C5: two different chunkings of the bytes [1, 2, 3]. -/
theorem claim_C5_witness :
    (([[1], [2, 3]] : List (List Nat)).flatten =
      ([[1, 2], [3]] : List (List Nat)).flatten) ∧
    (Crc32.digest (([[1], [2, 3]] : List (List Nat)).foldl Crc32.update Crc32.initial) =
      Crc32.digest (([[1, 2], [3]] : List (List Nat)).foldl Crc32.update Crc32.initial) ∧
    Crc16.digest (([[1], [2, 3]] : List (List Nat)).foldl Crc16.update Crc16.initial) =
      Crc16.digest (([[1, 2], [3]] : List (List Nat)).foldl Crc16.update Crc16.initial)) :=
  ⟨rfl, claim_C5 [[1], [2, 3]] [[1, 2], [3]] rfl⟩

/-- C6: a run configured with block size 0 (help not requested) is
rejected with an error before any Group processing: the outcome is an
error, never a finder result, and the exit code is non-zero. -/
theorem claim_C6 (opts : ProgramOptions) (files : List Candidate)
    (ioError : Option String) (hh : opts.show_help = false)
    (hb : opts.block_size = 0) :
    (∃ msg, mainRun opts files ioError = RunOutcome.error msg) ∧
    (∀ res, mainRun opts files ioError ≠ RunOutcome.ok res) ∧
    exitCode (mainRun opts files ioError) ≠ 0 := by
  have herr : ∃ msg, mainRun opts files ioError = RunOutcome.error msg := by
    rw [mainRun.eq_def, hh, hb]
    by_cases hr : opts.root_directories = []
    · rw [if_neg (by simp), if_pos hr]
      exact ⟨_, rfl⟩
    · rw [if_neg (by simp), if_neg hr, if_pos rfl]
      exact ⟨_, rfl⟩
  obtain ⟨msg, hmsg⟩ := herr
  refine ⟨⟨msg, hmsg⟩, ?_, ?_⟩
  · intro res hres
    rw [hmsg] at hres
    cases hres
  · rw [hmsg]
    simp [exitCode]

/-- Witness for C6 at a concrete configuration with block size 0. -/
theorem claim_C6_witness :
    (∃ msg, mainRun { block_size := 0, root_directories := ["r"] } [] none =
      RunOutcome.error msg) ∧
    (∀ res, mainRun { block_size := 0, root_directories := ["r"] } [] none ≠
      RunOutcome.ok res) ∧
    exitCode (mainRun { block_size := 0, root_directories := ["r"] } [] none) ≠ 0 :=
  claim_C6 { block_size := 0, root_directories := ["r"] } [] none rfl rfl

/-- C7: with an otherwise valid configuration, an unsupported hash name
aborts the run before any duplicate finding with a non-zero outcome and a
diagnostic naming the algorithm, while "crc32" and "crc16" dispatch the
finder on the corresponding checksum variant. -/
theorem claim_C7 (opts : ProgramOptions) (files : List Candidate)
    (ioError : Option String) (hh : opts.show_help = false)
    (hr : opts.root_directories ≠ []) (hb : ¬opts.block_size = 0) :
    (opts.hash_algorithm ≠ "crc32" → opts.hash_algorithm ≠ "crc16" →
      mainRun opts files ioError = RunOutcome.error
        ("Incorrect hash algorithm: " ++ opts.hash_algorithm ++
          ". Supported algorithms are crc32 and crc16.") ∧
      exitCode (mainRun opts files ioError) ≠ 0) ∧
    (opts.hash_algorithm = "crc32" → ioError = none →
      mainRun opts files ioError = RunOutcome.ok
        (findDuplicatesR Crc32 opts.block_size
          (applyMinFileSize opts.min_file_size files))) ∧
    (opts.hash_algorithm = "crc16" → ioError = none →
      mainRun opts files ioError = RunOutcome.ok
        (findDuplicatesR Crc16 opts.block_size
          (applyMinFileSize opts.min_file_size files))) := by
  refine ⟨?_, ?_, ?_⟩
  · intro h32 h16
    have hmain : mainRun opts files ioError = RunOutcome.error
        ("Incorrect hash algorithm: " ++ opts.hash_algorithm ++
          ". Supported algorithms are crc32 and crc16.") := by
      rw [mainRun.eq_def, hh]
      rw [if_neg (by simp), if_neg hr, if_neg hb, if_neg h32, if_neg h16]
    refine ⟨hmain, ?_⟩
    rw [hmain]
    simp [exitCode]
  · intro h32 hio
    rw [mainRun.eq_def, hh, hio]
    rw [if_neg (by simp), if_neg hr, if_neg hb, if_pos h32]
  · intro h16 hio
    have hne : ¬opts.hash_algorithm = "crc32" := by
      rw [h16]
      decide
    rw [mainRun.eq_def, hh, hio]
    rw [if_neg (by simp), if_neg hr, if_neg hb, if_neg hne, if_pos h16]

/-- Witness for C7: the unsupported algorithm name "md5" is rejected with
a diagnostic naming it. -/
theorem claim_C7_witness :
    mainRun { hash_algorithm := "md5", root_directories := ["r"] } [] none =
      RunOutcome.error
        ("Incorrect hash algorithm: " ++ "md5" ++
          ". Supported algorithms are crc32 and crc16.") ∧
    exitCode (mainRun { hash_algorithm := "md5", root_directories := ["r"] } [] none) ≠ 0 :=
  (claim_C7 { hash_algorithm := "md5", root_directories := ["r"] } [] none rfl
    (by decide) (by decide)).1 (by decide) (by decide)

/-- C8: the exit code is 0 exactly when the run did not end in an error,
and every failure carries a non-empty diagnostic on the error stream. -/
theorem claim_C8 (opts : ProgramOptions) (files : List Candidate)
    (ioError : Option String) :
    (exitCode (mainRun opts files ioError) = 0 ↔
      ∀ msg, mainRun opts files ioError ≠ RunOutcome.error msg) ∧
    (∀ d, diagnostic (mainRun opts files ioError) = some d → 0 < d.length) := by
  cases h : mainRun opts files ioError with
  | helpShown =>
      refine ⟨by simp [exitCode], ?_⟩
      intro d hd
      simp [diagnostic] at hd
  | ok res =>
      refine ⟨by simp [exitCode], ?_⟩
      intro d hd
      simp [diagnostic] at hd
  | error msg =>
      refine ⟨?_, ?_⟩
      · constructor
        · intro h0
          simp [exitCode] at h0
        · intro hne
          exact absurd rfl (hne msg)
      · intro d hd
        simp only [diagnostic, Option.some.injEq] at hd
        rw [← hd, String.length_append]
        have h7 : 0 < ("Error: " ++ msg).length := by
          rw [String.length_append]
          have : 0 < ("Error: ").length := by decide
          omega
        rw [String.length_append] at h7
        omega

/-- Witness for C8: a failing run carries a non-empty diagnostic. -/
theorem claim_C8_witness :
    exitCode (mainRun { block_size := 0, root_directories := ["r"] } [] none) ≠ 0 ∧
    0 < "Error: Block size must be at least 1".length :=
  ⟨by decide,
   (claim_C8 { block_size := 0, root_directories := ["r"] } [] none).2
     "Error: Block size must be at least 1" (by decide)⟩

/-- C9: a candidate dropped by a mid-run read failure is surfaced in the
warning list and appears in no emitted Group, while the run continues:
the remaining readable candidates are still compared to completion, so
readable identical files are still reported as duplicates. -/
theorem claim_C9 (alg : HashAlg σ) (B : Nat) (cs : List Candidate) :
    (∀ c ∈ (findDuplicatesR alg B cs).warnings,
      c ∈ cs ∧ ∀ G ∈ findDuplicates alg B cs, c ∉ G) ∧
    (∀ f g, f ∈ cs → g ∈ cs → f ≠ g → f.failAt = none → g.failAt = none →
      f.content = g.content →
      ∃ G ∈ findDuplicates alg B cs, f ∈ G ∧ g ∈ G) := by
  constructor
  · intro c hc
    obtain ⟨hcs, hfail⟩ := findDuplicatesR_warn alg B cs hc
    refine ⟨hcs, ?_⟩
    intro G hG hcG
    rw [findDuplicates] at hG
    obtain ⟨-, hok⟩ := findDuplicatesR_mem_group alg B cs hG hcG
    rw [hok] at hfail
    cases hfail
  · intro f g hf hg hfg hfn hgn hco
    rw [findDuplicates, findDuplicatesR_pair alg B cs hfg]
    refine ⟨hf, hg, by rw [hco], survivesAll_none hfn B, survivesAll_none hgn B, ?_⟩
    rw [fullTrace, fullTrace, hco]

/-- Witness for C9: of three equal 4-byte files, the one whose reads fail
from offset 2 on is warned about and dropped, and the other two are still
grouped. -/
theorem claim_C9_witness :
    ((⟨"W", [1, 2, 3, 4], some 2⟩ : Candidate) ∈
        ([⟨"W", [1, 2, 3, 4], some 2⟩, ⟨"X", [1, 2, 3, 4], none⟩,
          ⟨"Y", [1, 2, 3, 4], none⟩] : List Candidate) ∧
      ∀ G ∈ findDuplicates Crc32 2
          [⟨"W", [1, 2, 3, 4], some 2⟩, ⟨"X", [1, 2, 3, 4], none⟩,
            ⟨"Y", [1, 2, 3, 4], none⟩],
        (⟨"W", [1, 2, 3, 4], some 2⟩ : Candidate) ∉ G) ∧
    (∃ G ∈ findDuplicates Crc32 2
        [⟨"W", [1, 2, 3, 4], some 2⟩, ⟨"X", [1, 2, 3, 4], none⟩,
          ⟨"Y", [1, 2, 3, 4], none⟩],
      (⟨"X", [1, 2, 3, 4], none⟩ : Candidate) ∈ G ∧
      (⟨"Y", [1, 2, 3, 4], none⟩ : Candidate) ∈ G) :=
  ⟨(claim_C9 Crc32 2
      [⟨"W", [1, 2, 3, 4], some 2⟩, ⟨"X", [1, 2, 3, 4], none⟩,
        ⟨"Y", [1, 2, 3, 4], none⟩]).1
      ⟨"W", [1, 2, 3, 4], some 2⟩ (by decide),
   (claim_C9 Crc32 2
      [⟨"W", [1, 2, 3, 4], some 2⟩, ⟨"X", [1, 2, 3, 4], none⟩,
        ⟨"Y", [1, 2, 3, 4], none⟩]).2
      ⟨"X", [1, 2, 3, 4], none⟩ ⟨"Y", [1, 2, 3, 4], none⟩
      (by decide) (by decide) (by decide) rfl rfl rfl⟩

/-- C10: the parsed defaults are block size 4096, hash algorithm "crc32"
and minimum file size 1, so under an all-default configuration a
zero-length file never becomes a candidate. -/
theorem claim_C10 :
    defaultOptions.block_size = 4096 ∧
    defaultOptions.hash_algorithm = "crc32" ∧
    defaultOptions.min_file_size = 1 ∧
    ∀ (files : List Candidate) (c : Candidate), c.content.length = 0 →
      c ∉ applyMinFileSize defaultOptions.min_file_size files := by
  refine ⟨rfl, rfl, rfl, ?_⟩
  intro files c hc hmem
  rw [applyMinFileSize] at hmem
  have h2 := (List.mem_filter.mp hmem).2
  simp only [decide_eq_true_eq] at h2
  rw [hc] at h2
  have h1 : defaultOptions.min_file_size = 1 := rfl
  rw [h1] at h2
  omega

/-- Witness for C10: an empty file is filtered out by the default
minimum-size rule. -/
theorem claim_C10_witness :
    (⟨"e", [], none⟩ : Candidate) ∉
      applyMinFileSize defaultOptions.min_file_size [⟨"e", [], none⟩] :=
  claim_C10.2.2.2 [⟨"e", [], none⟩] ⟨"e", [], none⟩ rfl

end DupFinder
